import Mathlib

/-!
# Verification of the enrichment-flow job pipeline

A shallow embedding of the resilient concurrent row-processing engine in
`src/enrich_jobs.py` (with constants from `src/config.py`), together with
theorems settling the specification claims about it.

Modelling conventions:
* Python dicts are association lists `List (String × Value)`; `dict.get`
  returns the first binding (Python dicts have unique keys), assignment
  (`d[k] = v`) overwrites in place or appends.
* The external LLM call (`client.chat.completions.create`) is an oracle
  `Nat → CallOutcome` giving, per attempt number (1-based), either a raised
  exception or a returned content payload.  `json.loads` on a payload is
  modelled by the payload itself recording whether it parses (library
  behaviour outside the repository).
* The `tenacity` retry decorator on `enrich_single_job` is modelled from its
  configured parameters (`stop_after_attempt`, `wait_exponential`,
  `retry_if_exception_type((Exception,))`, `reraise=True`).
* Filesystem state (output CSV, progress JSON) is explicit state threaded
  through `process_jobs`; thread-pool completions are observed in an
  arbitrary order given by a `completionOrder` parameter, which theorems
  constrain to be a permutation of the submitted rows.
-/

namespace EnrichFlow

/-- A JSON-ish value as produced by `json.loads` / held in a Python dict:
a string, a list, or `None`.  (Numbers and nested objects in enrichment
fields go through `str(value)`; for the properties at stake only the
string/list/None distinction matters, so scalars are carried as their
`str()` rendering.) -/
inductive Value where
  | vstr : String → Value
  | vlist : List Value → Value
  | vnull : Value
deriving Repr

/-- Escape one character the way `json.dumps` escapes string contents. -/
def jsonEscapeChar (c : Char) : String :=
  if c = '\x5c' then "\x5c\x5c"
  else if c = '\"' then "\x5c\""
  else if c = '\n' then "\x5cn"
  else if c = '\t' then "\x5ct"
  else if c = '\r' then "\x5cr"
  else String.singleton c

/-- `json.dumps` of a string: quoted, with escapes. -/
def jsonDumpsStr (s : String) : String :=
  "\"" ++ String.join (s.toList.map jsonEscapeChar) ++ "\""

mutual

/-- `json.dumps` of a value. -/
def jsonDumps : Value → String
  | .vstr s => jsonDumpsStr s
  | .vnull => "null"
  | .vlist l => "[" ++ jsonDumpsList l ++ "]"

/-- `json.dumps` of the comma-separated items of a list. -/
def jsonDumpsList : List Value → String
  | [] => ""
  | [v] => jsonDumps v
  | v :: vs => jsonDumps v ++ ", " ++ jsonDumpsList vs

end

/-- `config.MAX_RETRIES`: retry attempts per job. -/
def MAX_RETRIES : Nat := 5

/-- `config.RETRY_DELAY_SECONDS`: base delay for exponential backoff. -/
def RETRY_DELAY_SECONDS : Nat := 2

/-- `config.PARALLEL_WORKERS`. -/
def PARALLEL_WORKERS : Nat := 50

/-- `config.ENRICHMENT_COLUMNS`: the output schema columns added by
enrichment, in their fixed order. -/
def ENRICHMENT_COLUMNS : List String :=
  [ "job_family", "job_subfamily", "job_level", "employer_type",
    "dbm_band", "complexity_score",
    "compensation_summary",
    "fte_managed", "budget_authority", "scope_of_impact",
    "licenses_required", "certifications_required", "education_minimum",
    "education_field", "years_experience", "specialized_systems",
    "specialized_knowledge",
    "supervision_given", "supervision_received", "physical_context",
    "flsa_likely", "work_schedule", "hours_per_week",
    "consequence_of_error", "decision_authority",
    "pension_type", "retirement_system", "benefits_mentioned",
    "is_union_indicated", "bargaining_unit_name",
    "enriched_at" ]

/-- A Python dict with string keys. -/
abbrev Dict := List (String × Value)

/-- `d.get(k)`: first binding for `k`, if any (Python dicts are
duplicate-free, so first = only). -/
def dictGet (d : Dict) (k : String) : Option Value :=
  match d.find? (fun p => p.1 = k) with
  | some p => some p.2
  | none => none

/-- `k in d`: key membership. -/
def dictHas (d : Dict) (k : String) : Bool :=
  d.any (fun p => p.1 = k)

/-- `d[k] = v`: overwrite in place if present, else append. -/
def dictSet (d : Dict) (k : String) (v : Value) : Dict :=
  if dictHas d k then d.map (fun p => if p.1 = k then (k, v) else p)
  else d ++ [(k, v)]

/-- `str(value)` for the values a parsed enrichment dict can hold (scalars
are carried as their `str()` rendering already). -/
def pyStr : Value → String
  | .vstr s => s
  | .vnull => "None"
  | .vlist l => "[" ++ jsonDumpsList l ++ "]"

/-- The loop body of `flatten_enrichment` (src/enrich_jobs.py lines
188-195) for one column: `value = enrichment.get(col)`; a list value
becomes its JSON dump when non-empty and `""` when empty, a missing value
or `None` becomes `""`, anything else its `str()`. -/
def flattenCell (enrichment : Dict) (col : String) : String :=
  match dictGet enrichment col with
  | some (.vlist l) => if l.length > 0 then jsonDumps (.vlist l) else ""
  | some .vnull => ""
  | some v => pyStr v
  | none => ""

/-- `flatten_enrichment` (lines 185-196): one flattened entry per schema
column, in schema order. -/
def flatten_enrichment (enrichment : Dict) : List (String × String) :=
  ENRICHMENT_COLUMNS.map (fun col => (col, flattenCell enrichment col))

/-- The value a flattened dict holds for a column, as the output writer
reads it (first binding for the key). -/
def flatLookup (flat : List (String × String)) (col : String) :
    Option String :=
  (flat.find? (fun p => p.1 = col)).map Prod.snd

/-- The content payload returned by one successful (non-raising) LLM call,
as seen by `parse_llm_response`: either it parses (after code-fence
stripping) to a JSON object, or `json.loads` raises `JSONDecodeError` with
some message.  The parse itself is `json.loads`, library behaviour outside
the repository, so the payload records its own parse outcome. -/
inductive Content where
  | parsable : Dict → Content
  | unparsable : (errMsg : String) → (raw : String) → Content
deriving Repr

/-- `parse_llm_response` (lines 79-94): on a decode error it returns the
sentinel dict carrying `_parse_error` and the first 1000 characters of the
raw content instead of raising. -/
def parse_llm_response : Content → Dict
  | .parsable d => d
  | .unparsable e raw =>
      [("_parse_error", .vstr e), ("_raw_content", .vstr (raw.take 1000))]

/-- Outcome of one attempt of the wrapped LLM call: either the call raises
an exception (carrying its message) or returns a content payload. -/
inductive CallOutcome where
  | raises : String → CallOutcome
  | returns : Content → CallOutcome
deriving Repr

/-- Per-attempt behaviour of the external Enrichment Function for one row:
attempt numbers are 1-based. -/
abbrev Oracle := Nat → CallOutcome

/-- `tenacity.wait_exponential(multiplier, min, max)` evaluated after the
failure of attempt `attemptNumber`: `multiplier * 2^(attemptNumber-1)`
clamped into `[mn, mx]`. -/
def wait_exponential (multiplier mn mx attemptNumber : Nat) : Nat :=
  max (max 0 mn) (min (multiplier * 2 ^ (attemptNumber - 1)) mx)

/-- The backoff configured on `enrich_single_job`:
`wait_exponential(multiplier=RETRY_DELAY_SECONDS, min=2, max=60)`. -/
def configuredWait (attemptNumber : Nat) : Nat :=
  wait_exponential RETRY_DELAY_SECONDS 2 60 attemptNumber

/-- Trace of one run of the retry-wrapped call: the final result (payload
parsed by `parse_llm_response`, or the re-raised exception message), the
number of attempts actually made, and the list of delays slept, in order
(`delays[i]` is the delay before attempt `i+2`). -/
structure RetryTrace where
  result : Except String Dict
  attempts : Nat
  delays : List Nat
deriving Repr

/-- Loop of the `tenacity` retry wrapper around the LLM call
(`stop_after_attempt`, all exceptions retryable, `reraise=True`):
`fuel` is the number of attempts still allowed, `n` the current attempt
number, `ds` the delays slept so far (reversed). -/
def retryGo (oracle : Oracle) : Nat → Nat → List Nat → RetryTrace
  | 0, n, ds => ⟨.error "stop_after_attempt(0)", n - 1, ds.reverse⟩
  | fuel + 1, n, ds =>
      match oracle n with
      | .returns c => ⟨.ok (parse_llm_response c), n, ds.reverse⟩
      | .raises e =>
          if fuel = 0 then ⟨.error e, n, ds.reverse⟩
          else retryGo oracle fuel (n + 1) (configuredWait n :: ds)

/-- `enrich_single_job` (lines 97-142) for one row, given the per-attempt
oracle: the `@retry`-decorated call with `stop_after_attempt(MAX_RETRIES)`,
the configured exponential backoff, every `Exception` retryable, and the
last exception re-raised on exhaustion; a non-raising return is passed
through `parse_llm_response`. -/
def enrich_single_job (oracle : Oracle) : RetryTrace :=
  retryGo oracle MAX_RETRIES 1 []

/-- The blank enrichment dict `{col: "" for col in ENRICHMENT_COLUMNS}`. -/
def blankEnrichment : Dict :=
  ENRICHMENT_COLUMNS.map (fun col => (col, Value.vstr ""))

/-- `process_single_row` (lines 145-182), abstracting the row fields (they
only feed the prompt) and taking the timestamp `ts` that
`datetime.now(timezone.utc).isoformat()` returns for this row: yields
`(index, enrichment dict, optional error message)`. -/
def process_single_row (oracle : Oracle) (idx : Nat) (ts : String) :
    Nat × Dict × Option String :=
  match (enrich_single_job oracle).result with
  | .error e => (idx, blankEnrichment, some (e.take 100))
  | .ok enrichment =>
      if dictHas enrichment "_parse_error" then
        (idx, blankEnrichment, some "JSON parse error")
      else
        (idx, dictSet enrichment "enriched_at" (.vstr ts), none)

/-- One input row, as loaded by `pd.read_csv` and handed to workers via
`df.iloc[idx].to_dict()`: named fields carried as their string renderings. -/
abbrev Row := List (String × String)

/-- `df.iloc[idx].to_dict()`: the row at `idx` (callers only use in-range
indices). -/
def dfGet (rows : List Row) (idx : Nat) : Row := rows.getD idx []

/-- One data record of the output CSV: the originating row index (ghost
information recording which row produced the record) and the serialized
cell values, in `output_columns` order. -/
structure OutRecord where
  srcIdx : Nat
  cells : List String

/-- The file at the output path: the header row and the data records
appended after it. -/
structure OutFile where
  header : List String
  rows : List OutRecord

/-- The checkpoint file `<output>.progress.json` (lines 213-222).  The
`last_updated` wall-clock timestamp is omitted: no claim concerns it.  The
`processed_indices` JSON list serializes a Python `set`, so it is carried
as the set itself. -/
structure Progress where
  processed_indices : Finset Nat
  total : Nat
  errors : Nat

/-- `output_columns` (line 248): input columns followed by the enrichment
columns not already present in the input. -/
def output_columns (inputColumns : List String) : List String :=
  inputColumns ++ ENRICHMENT_COLUMNS.filter (fun c => c ∉ inputColumns)

/-- One serialized cell of `{**original_row, **flat}` under
`csv.DictWriter(fieldnames=output_columns)`: the flattened enrichment value
if the column is an enrichment column (`flat` holds every schema column, so
it overrides the original row), else the original row's value, else the
writer's empty `restval`. -/
def renderCell (originalRow : Row) (flat : List (String × String))
    (col : String) : String :=
  match flat.find? (fun p => p.1 = col) with
  | some p => p.2
  | none =>
      match originalRow.find? (fun p => p.1 = col) with
      | some p => p.2
      | none => ""

/-- `writer.writerow(output_row)`: the cells in `output_columns` order. -/
def renderRow (outputColumns : List String) (originalRow : Row)
    (flat : List (String × String)) : List String :=
  outputColumns.map (renderCell originalRow flat)

/-- The cell a record holds for a named column, located through the file's
header. -/
def recordCell (hdr : List String) (rec : OutRecord) (col : String) :
    Option String :=
  ((hdr.zip rec.cells).find? (fun p => p.1 = col)).map Prod.snd

/-- The environment a run executes in: everything outside the function's
own arguments — the input file, the credential, the per-row per-attempt
LLM behaviour, the timestamps, the order in which the thread pool's
futures complete, and the files already present at the output and
checkpoint paths. -/
structure Env where
  input : Except String (List String × List Row)
  apiKeyPresent : Bool
  oracles : Nat → Oracle
  now : Nat → String
  completionOrder : List Nat
  priorOutput : Option OutFile
  priorProgress : Option Progress

/-- The enrichment dict `process_single_row` yields for row `idx`. -/
def rowEnrichment (env : Env) (idx : Nat) : Dict :=
  (process_single_row (env.oracles idx) idx (env.now idx)).2.1

/-- The error message `process_single_row` yields for row `idx`, if any. -/
def rowError (env : Env) (idx : Nat) : Option String :=
  (process_single_row (env.oracles idx) idx (env.now idx)).2.2

/-- The output record the drain loop writes for row `idx`. -/
def rowRecord (env : Env) (outputColumns : List String) (getRow : Nat → Row)
    (idx : Nat) : OutRecord :=
  ⟨idx, renderRow outputColumns (getRow idx)
      (flatten_enrichment (rowEnrichment env idx))⟩

/-- The number of LLM API calls made for row `idx` (attempts of the retry
wrapper). -/
def rowCalls (env : Env) (idx : Nat) : Nat :=
  (enrich_single_job (env.oracles idx)).attempts

/-- The error entries accumulated for the completions `l`, in completion
order (line 320). -/
def errList (env : Env) (l : List Nat) : List (Nat × String) :=
  l.filterMap (fun i => (rowError env i).map (fun e => (i, e)))

/-- Mutable state of the drain loop (lines 300-334): the output file, the
in-memory `processed_indices` set, the `errors` list with its counter, the
checkpoint file as last persisted, and the running count of LLM calls. -/
structure LoopState where
  outFile : OutFile
  processed : Finset Nat
  errors : List (Nat × String)
  error_count : Nat
  progressFile : Option Progress
  enrichCalls : Nat

/-- One iteration of the drain loop, for the completed future of row `idx`:
flatten the enrichment, append the merged record to the output file, add
the index to `processed_indices`, record the error if any, and persist the
checkpoint when the processed count hits a multiple of 10. -/
def drainStep (env : Env) (getRow : Nat → Row) (outputColumns : List String)
    (total_rows : Nat) (s : LoopState) (idx : Nat) : LoopState :=
  let record := rowRecord env outputColumns getRow idx
  let outFile : OutFile := ⟨s.outFile.header, s.outFile.rows ++ [record]⟩
  let processed := insert idx s.processed
  let errors :=
    match rowError env idx with
    | some e => s.errors ++ [(idx, e)]
    | none => s.errors
  let error_count :=
    match rowError env idx with
    | some _ => s.error_count + 1
    | none => s.error_count
  let progressFile :=
    if processed.card % 10 = 0 then some ⟨processed, total_rows, error_count⟩
    else s.progressFile
  ⟨outFile, processed, errors, error_count, progressFile,
    s.enrichCalls + rowCalls env idx⟩

/-- End-of-run summary (lines 339-356). -/
structure Summary where
  processedCount : Nat
  successCount : Nat
  errors : List (Nat × String)

/-- How a call to `process_jobs` ends. -/
inductive RunResult where
  | inputError : String → RunResult
  | nothingToDo : RunResult
  | dryRun : Nat → RunResult
  | credentialError : RunResult
  | completed : Summary → RunResult

/-- What a run leaves behind: its result, the file at the output path, the
checkpoint file, and how many LLM API calls were made. -/
structure RunEffects where
  result : RunResult
  outputFile : Option OutFile
  progressFile : Option Progress
  enrichCalls : Nat

/-- `load_progress` (lines 204-210) guarded by `progress_file.exists()`
(line 254): the stored index set, or empty when no checkpoint exists. -/
def load_progress : Option Progress → Finset Nat
  | some p => p.processed_indices
  | none => ∅

/-- `process_jobs` (lines 225-356).  Early exits in source order: the
`pd.read_csv` exception propagates; `if limit:` truncates (falsy `0` does
not); a resume run loads the checkpoint; an empty `rows_to_process` returns
"All rows already processed!"; a dry run returns after reporting; a missing
API key exits.  Otherwise a fresh (or output-less) run truncates the output
file to just the header, the drain loop runs over the completions in the
order the pool delivers them, and a final checkpoint save closes the run. -/
def process_jobs (env : Env) (limit : Option Nat) (resume dry_run : Bool) :
    RunEffects :=
  match env.input with
  | .error e => ⟨.inputError e, env.priorOutput, env.priorProgress, 0⟩
  | .ok (inputColumns, rows0) =>
      let rows := match limit with
        | some l => if l ≠ 0 then rows0.take l else rows0
        | none => rows0
      let total_rows := rows.length
      let outputColumns := output_columns inputColumns
      let processed₀ : Finset Nat :=
        if resume then load_progress env.priorProgress else ∅
      let rows_to_process :=
        (List.range total_rows).filter (fun i => i ∉ processed₀)
      if rows_to_process.length = 0 then
        ⟨.nothingToDo, env.priorOutput, env.priorProgress, 0⟩
      else if dry_run then
        ⟨.dryRun rows_to_process.length, env.priorOutput, env.priorProgress, 0⟩
      else if env.apiKeyPresent = false then
        ⟨.credentialError, env.priorOutput, env.priorProgress, 0⟩
      else
        let outFile₀ : OutFile :=
          if resume = false ∨ env.priorOutput.isNone then ⟨outputColumns, []⟩
          else match env.priorOutput with
            | some f => f
            | none => ⟨outputColumns, []⟩
        let init : LoopState :=
          ⟨outFile₀, processed₀, [], 0, env.priorProgress, 0⟩
        let final := env.completionOrder.foldl
          (drainStep env (dfGet rows) outputColumns total_rows) init
        ⟨.completed ⟨rows_to_process.length,
            rows_to_process.length - final.errors.length, final.errors⟩,
          some final.outFile,
          some ⟨final.processed, total_rows, final.error_count⟩,
          final.enrichCalls⟩

/-- Exit status of `main` (lines 359-394) by run result: an unreadable
input propagates the `pd.read_csv` exception (non-zero exit; the explicit
`input_path.exists()` check likewise exits 1), a missing credential is
`sys.exit(1)` inside `get_api_key`, and every other outcome — including a
completed run with row-level errors — falls through to a normal exit. -/
def mainExitCode : RunResult → Nat
  | .inputError _ => 1
  | .credentialError => 1
  | _ => 0

/-! ## Concrete instances used to exercise the theorems -/

/-- A three-row input dataset. -/
def witRows : List Row :=
  [[("job_title", "Clerk"), ("employer", "City of Springfield")],
   [("job_title", "Engineer"), ("employer", "Shelby County")],
   [("job_title", "Analyst"), ("employer", "Water District")]]

/-- An Enrichment Function that succeeds on the first attempt. -/
def witOracleOk : Oracle :=
  fun _ => .returns (.parsable [("job_family", .vstr "Administration/Clerk")])

/-- An Enrichment Function whose every attempt raises. -/
def witOracleFail : Oracle := fun _ => .raises "connection timeout"

/-- An Enrichment Function that raises on attempts 1 and 2 and returns a
parsable payload on attempt 3. -/
def witOracleLate : Oracle := fun n =>
  if n < 3 then .raises "rate limited"
  else .returns (.parsable [("job_family", .vstr "Engineering/Technical Services")])

/-- An Enrichment Function that returns (without raising) a payload that is
not valid JSON. -/
def witOracleBad : Oracle :=
  fun _ => .returns (.unparsable "Expecting value: line 1 column 1 (char 0)"
    "I cannot answer that")

/-- A fresh-run environment over `witRows` in which row 1's calls always
raise; the pool completes the rows in the order 2, 0, 1. -/
def witEnv : Env :=
  { input := .ok (["job_title", "employer"], witRows)
    apiKeyPresent := true
    oracles := fun i => if i = 1 then witOracleFail else witOracleOk
    now := fun _ => "2026-10-12T00:00:00+00:00"
    completionOrder := [2, 0, 1]
    priorOutput := none
    priorProgress := none }

/-- The environment of a second run over the same input and output target,
after the run in `witEnv` has completed: the first run's output file and
checkpoint are in place. -/
def witEnvResume : Env :=
  { witEnv with
    priorOutput := (process_jobs witEnv none false false).outputFile
    priorProgress := (process_jobs witEnv none false false).progressFile }

/-- `witEnv` with stale files already sitting at the output path and at the
checkpoint path. -/
def witEnvStale : Env :=
  { witEnv with
    priorOutput := some ⟨["stale_col"], [⟨99, ["stale cell"]⟩]⟩
    priorProgress := some ⟨{0, 1, 2}, 3, 0⟩ }

/-- An environment whose input file loads successfully but holds zero data
rows. -/
def witEnvEmpty : Env :=
  { input := .ok (["job_title", "employer"], [])
    apiKeyPresent := true
    oracles := fun _ => witOracleOk
    now := fun _ => "2026-10-12T00:00:00+00:00"
    completionOrder := []
    priorOutput := none
    priorProgress := none }

/-- An environment whose input file is unreadable: `pd.read_csv` raises. -/
def witEnvBadInput : Env :=
  { input := .error "ParserError: Error tokenizing data"
    apiKeyPresent := true
    oracles := fun _ => witOracleOk
    now := fun _ => "2026-10-12T00:00:00+00:00"
    completionOrder := []
    priorOutput := none
    priorProgress := none }

/-- A fresh-run environment over `witRows` exhibiting both row-level error
causes at once: row 1's calls always raise (retries exhausted) and row 2's
first call returns an unparsable payload (structural failure); row 0
succeeds. -/
def witEnvMixed : Env :=
  { input := .ok (["job_title", "employer"], witRows)
    apiKeyPresent := true
    oracles := fun i =>
      if i = 1 then witOracleFail
      else if i = 2 then witOracleBad
      else witOracleOk
    now := fun _ => "2026-10-12T00:00:00+00:00"
    completionOrder := [2, 0, 1]
    priorOutput := none
    priorProgress := none }

/-! ## Lemmas about the retry loop -/

theorem retryGo_attempts_ge (oracle : Oracle) :
    ∀ fuel n ds, 1 ≤ fuel → n ≤ (retryGo oracle fuel n ds).attempts := by
  intro fuel
  induction fuel with
  | zero => intro n ds h; omega
  | succ F ih =>
      intro n ds _
      show n ≤ (retryGo oracle (F + 1) n ds).attempts
      rw [retryGo]
      cases oracle n with
      | returns c => simp
      | raises e =>
          by_cases hF : F = 0
          · simp [hF]
          · simp only [hF, if_false]
            have := ih (n + 1) (configuredWait n :: ds) (by omega)
            omega

theorem retryGo_attempts_lt (oracle : Oracle) :
    ∀ fuel n ds, 1 ≤ fuel → (retryGo oracle fuel n ds).attempts < n + fuel := by
  intro fuel
  induction fuel with
  | zero => intro n ds h; omega
  | succ F ih =>
      intro n ds _
      rw [retryGo]
      cases oracle n with
      | returns c => simp
      | raises e =>
          by_cases hF : F = 0
          · simp [hF]
          · simp only [hF, if_false]
            have := ih (n + 1) (configuredWait n :: ds) (by omega)
            omega

theorem retryGo_delays (oracle : Oracle) :
    ∀ fuel n ds, 1 ≤ fuel →
      (retryGo oracle fuel n ds).delays = ds.reverse ++
        (List.range ((retryGo oracle fuel n ds).attempts - n)).map
          (fun i => configuredWait (n + i)) := by
  intro fuel
  induction fuel with
  | zero => intro n ds h; omega
  | succ F ih =>
      intro n ds _
      rw [retryGo]
      cases oracle n with
      | returns c => simp
      | raises e =>
          by_cases hF : F = 0
          · simp [hF]
          · simp only [hF, if_false]
            have hge := retryGo_attempts_ge oracle F (n + 1)
              (configuredWait n :: ds) (by omega)
            have hrec := ih (n + 1) (configuredWait n :: ds) (by omega)
            rw [hrec]
            have hm : (retryGo oracle F (n + 1) (configuredWait n :: ds)).attempts - n
                = ((retryGo oracle F (n + 1) (configuredWait n :: ds)).attempts - (n + 1)) + 1 := by
              omega
            rw [hm, List.range_succ_eq_map]
            simp [Function.comp_def, Nat.add_assoc, Nat.add_comm 1]

theorem retryGo_raises_before (oracle : Oracle) :
    ∀ fuel n ds, 1 ≤ fuel → ∀ k, n ≤ k →
      k < (retryGo oracle fuel n ds).attempts → ∃ e, oracle k = .raises e := by
  intro fuel
  induction fuel with
  | zero => intro n ds h; omega
  | succ F ih =>
      intro n ds _ k hnk hk
      rw [retryGo] at hk
      cases ho : oracle n with
      | returns c => rw [ho] at hk; simp at hk; omega
      | raises e =>
          rw [ho] at hk
          by_cases hF : F = 0
          · simp [hF] at hk; omega
          · simp only [hF, if_false] at hk
            by_cases hkn : k = n
            · exact ⟨e, hkn ▸ ho⟩
            · exact ih (n + 1) (configuredWait n :: ds) (by omega) k (by omega) hk

theorem retryGo_step_returns (oracle : Oracle) (n : Nat) (ds : List Nat)
    (F : Nat) (c : Content) (ho : oracle n = .returns c) :
    retryGo oracle (F + 1) n ds =
      ⟨.ok (parse_llm_response c), n, ds.reverse⟩ := by
  rw [retryGo, ho]

theorem retryGo_step_last (oracle : Oracle) (n : Nat) (ds : List Nat)
    (F : Nat) (e : String) (ho : oracle n = .raises e) (hF : F = 0) :
    retryGo oracle (F + 1) n ds = ⟨.error e, n, ds.reverse⟩ := by
  rw [retryGo, ho]; simp [hF]

theorem retryGo_step_raises (oracle : Oracle) (n : Nat) (ds : List Nat)
    (F : Nat) (e : String) (ho : oracle n = .raises e) (hF : F ≠ 0) :
    retryGo oracle (F + 1) n ds =
      retryGo oracle F (n + 1) (configuredWait n :: ds) := by
  rw [retryGo, ho]; simp [hF]

theorem retryGo_error (oracle : Oracle) :
    ∀ fuel n ds, 1 ≤ fuel → ∀ e,
      (retryGo oracle fuel n ds).result = .error e →
      (retryGo oracle fuel n ds).attempts + 1 = n + fuel ∧
        oracle (retryGo oracle fuel n ds).attempts = .raises e := by
  intro fuel
  induction fuel with
  | zero => intro n ds h; omega
  | succ F ih =>
      intro n ds _ e he
      cases ho : oracle n with
      | returns c =>
          rw [retryGo_step_returns oracle n ds F c ho] at he
          simp at he
      | raises e' =>
          by_cases hF : F = 0
          · rw [retryGo_step_last oracle n ds F e' ho hF] at he ⊢
            simp at he
            refine ⟨by show n + 1 = n + (F + 1); omega, ?_⟩
            show oracle n = .raises e
            rw [ho, he]
          · rw [retryGo_step_raises oracle n ds F e' ho hF] at he ⊢
            have := ih (n + 1) (configuredWait n :: ds) (by omega) e he
            exact ⟨by omega, this.2⟩

theorem retryGo_early_success (oracle : Oracle) :
    ∀ fuel n ds, 1 ≤ fuel →
      (retryGo oracle fuel n ds).attempts + 1 < n + fuel →
      ∃ c, oracle (retryGo oracle fuel n ds).attempts = .returns c ∧
        (retryGo oracle fuel n ds).result = .ok (parse_llm_response c) := by
  intro fuel
  induction fuel with
  | zero => intro n ds h; omega
  | succ F ih =>
      intro n ds _ hlt
      cases ho : oracle n with
      | returns c =>
          rw [retryGo_step_returns oracle n ds F c ho]
          exact ⟨c, ho, rfl⟩
      | raises e =>
          by_cases hF : F = 0
          · rw [retryGo_step_last oracle n ds F e ho hF] at hlt
            simp at hlt; omega
          · rw [retryGo_step_raises oracle n ds F e ho hF] at hlt ⊢
            exact ih (n + 1) (configuredWait n :: ds) (by omega) (by omega)

theorem retryGo_success_at (oracle : Oracle) :
    ∀ fuel n ds m c, n ≤ m → m < n + fuel →
      (∀ k, n ≤ k → k < m → ∃ e, oracle k = .raises e) →
      oracle m = .returns c →
      (retryGo oracle fuel n ds).attempts = m ∧
        (retryGo oracle fuel n ds).result = .ok (parse_llm_response c) := by
  intro fuel
  induction fuel with
  | zero => intro n ds m c h1 h2; omega
  | succ F ih =>
      intro n ds m c hnm hm hraise hc
      rw [retryGo]
      by_cases hmn : m = n
      · subst hmn; rw [hc]; exact ⟨rfl, rfl⟩
      · obtain ⟨e, he⟩ := hraise n (le_refl n) (by omega)
        rw [he]
        have hF : F ≠ 0 := by omega
        simp only [hF, if_false]
        exact ih (n + 1) (configuredWait n :: ds) m c (by omega) (by omega)
          (fun k h1 h2 => hraise k (by omega) h2) hc

/-! ## Lemmas about the drain loop -/

theorem errList_nil (env : Env) : errList env [] = [] := rfl

theorem errList_cons (env : Env) (a : Nat) (l : List Nat) :
    errList env (a :: l) =
      (match rowError env a with
        | some e => [(a, e)]
        | none => []) ++ errList env l := by
  cases h : rowError env a <;> simp [errList, h]

theorem foldl_drain_header (env : Env) (g : Nat → Row) (cols : List String)
    (T : Nat) :
    ∀ (l : List Nat) (s : LoopState),
      (l.foldl (drainStep env g cols T) s).outFile.header =
        s.outFile.header := by
  intro l
  induction l with
  | nil => intro s; rfl
  | cons a l ih =>
      intro s
      rw [List.foldl_cons, ih]
      rfl

theorem foldl_drain_rows (env : Env) (g : Nat → Row) (cols : List String)
    (T : Nat) :
    ∀ (l : List Nat) (s : LoopState),
      (l.foldl (drainStep env g cols T) s).outFile.rows =
        s.outFile.rows ++ l.map (rowRecord env cols g) := by
  intro l
  induction l with
  | nil => intro s; simp
  | cons a l ih =>
      intro s
      rw [List.foldl_cons, ih]
      simp [drainStep]

theorem foldl_drain_processed (env : Env) (g : Nat → Row) (cols : List String)
    (T : Nat) :
    ∀ (l : List Nat) (s : LoopState),
      (l.foldl (drainStep env g cols T) s).processed =
        s.processed ∪ l.toFinset := by
  intro l
  induction l with
  | nil => intro s; simp
  | cons a l ih =>
      intro s
      rw [List.foldl_cons, ih]
      show (insert a s.processed) ∪ l.toFinset = _
      ext x
      simp [or_comm, or_assoc, or_left_comm]

theorem foldl_drain_errors (env : Env) (g : Nat → Row) (cols : List String)
    (T : Nat) :
    ∀ (l : List Nat) (s : LoopState),
      (l.foldl (drainStep env g cols T) s).errors =
        s.errors ++ errList env l := by
  intro l
  induction l with
  | nil => intro s; simp [errList_nil]
  | cons a l ih =>
      intro s
      rw [List.foldl_cons, ih, errList_cons]
      cases h : rowError env a <;> simp [drainStep, h]

theorem foldl_drain_error_count (env : Env) (g : Nat → Row)
    (cols : List String) (T : Nat) :
    ∀ (l : List Nat) (s : LoopState),
      (l.foldl (drainStep env g cols T) s).error_count =
        s.error_count + (errList env l).length := by
  intro l
  induction l with
  | nil => intro s; simp [errList_nil]
  | cons a l ih =>
      intro s
      rw [List.foldl_cons, ih, errList_cons]
      cases h : rowError env a
      · simp [drainStep, h]
      · simp [drainStep, h]
        ring

theorem foldl_drain_calls (env : Env) (g : Nat → Row) (cols : List String)
    (T : Nat) :
    ∀ (l : List Nat) (s : LoopState),
      (l.foldl (drainStep env g cols T) s).enrichCalls =
        s.enrichCalls + (l.map (rowCalls env)).sum := by
  intro l
  induction l with
  | nil => intro s; simp
  | cons a l ih =>
      intro s
      rw [List.foldl_cons, ih]
      show s.enrichCalls + rowCalls env a + _ = _
      simp
      omega

theorem retryGo_ok (oracle : Oracle) :
    ∀ fuel n ds, 1 ≤ fuel → ∀ d,
      (retryGo oracle fuel n ds).result = .ok d →
      ∃ c, oracle (retryGo oracle fuel n ds).attempts = .returns c ∧
        d = parse_llm_response c := by
  intro fuel
  induction fuel with
  | zero => intro n ds h; omega
  | succ F ih =>
      intro n ds _ d hd
      cases ho : oracle n with
      | returns c =>
          rw [retryGo_step_returns oracle n ds F c ho] at hd ⊢
          simp at hd
          exact ⟨c, ho, hd.symm⟩
      | raises e =>
          by_cases hF : F = 0
          · rw [retryGo_step_last oracle n ds F e ho hF] at hd
            simp at hd
          · rw [retryGo_step_raises oracle n ds F e ho hF] at hd ⊢
            exact ih (n + 1) (configuredWait n :: ds) (by omega) d hd

/-! ## Lemmas about dict and record lookups -/

theorem find?_map_key {β : Type} (g : String → β) (col : String) :
    ∀ l : List String, col ∈ l →
      (l.map (fun c => (c, g c))).find? (fun p => p.1 = col) =
        some (col, g col) := by
  intro l
  induction l with
  | nil => intro h; cases h
  | cons a l ih =>
      intro h
      by_cases hac : a = col
      · subst hac
        simp [List.find?_cons]
      · have hcl : col ∈ l := by
          cases h with
          | head => exact absurd rfl hac
          | tail _ h => exact h
        simp [List.find?_cons, hac, ih hcl]

theorem flatLookup_flatten (e : Dict) (col : String)
    (h : col ∈ ENRICHMENT_COLUMNS) :
    flatLookup (flatten_enrichment e) col = some (flattenCell e col) := by
  unfold flatLookup flatten_enrichment
  rw [find?_map_key (flattenCell e) col ENRICHMENT_COLUMNS h]
  rfl

theorem dictGet_blank (col : String) (h : col ∈ ENRICHMENT_COLUMNS) :
    dictGet blankEnrichment col = some (.vstr "") := by
  unfold dictGet blankEnrichment
  rw [find?_map_key (fun _ => Value.vstr "") col ENRICHMENT_COLUMNS h]

theorem flattenCell_blank (col : String) (h : col ∈ ENRICHMENT_COLUMNS) :
    flattenCell blankEnrichment col = "" := by
  unfold flattenCell
  rw [dictGet_blank col h]
  rfl

theorem find?_setmap (k c : String) (v : Value) (hne : c ≠ k) :
    ∀ d : Dict,
      (d.map (fun p => if p.1 = k then (k, v) else p)).find?
          (fun p => p.1 = c) =
        d.find? (fun p => p.1 = c) := by
  intro d
  induction d with
  | nil => rfl
  | cons p d ih =>
      by_cases hp : p.1 = k
      · have h1 : ¬ (k = c) := fun h => hne h.symm
        have h2 : ¬ (p.1 = c) := by rw [hp]; exact h1
        simp [List.find?_cons, hp, h1, h2, ih]
      · by_cases hc : p.1 = c
        · simp [List.find?_cons, hp, hc, hne]
        · simp [List.find?_cons, hp, hc, ih]

theorem find?_append_single (k c : String) (v : Value) (hne : c ≠ k) :
    ∀ d : Dict,
      (d ++ [(k, v)]).find? (fun p => p.1 = c) =
        d.find? (fun p => p.1 = c) := by
  intro d
  induction d with
  | nil =>
      have h1 : ¬ (k = c) := fun h => hne h.symm
      simp [List.find?_cons, h1]
  | cons p d ih =>
      by_cases hc : p.1 = c
      · simp [List.find?_cons, hc]
      · simp [List.find?_cons, hc, ih]

theorem dictGet_dictSet_ne (d : Dict) (k c : String) (v : Value)
    (hne : c ≠ k) : dictGet (dictSet d k v) c = dictGet d c := by
  unfold dictSet
  by_cases h : dictHas d k = true
  · rw [if_pos h]
    unfold dictGet
    rw [find?_setmap k c v hne d]
  · rw [if_neg h]
    unfold dictGet
    rw [find?_append_single k c v hne d]

theorem renderCell_flatten (row : Row) (e : Dict) (col : String)
    (h : col ∈ ENRICHMENT_COLUMNS) :
    renderCell row (flatten_enrichment e) col = flattenCell e col := by
  unfold renderCell flatten_enrichment
  rw [find?_map_key (flattenCell e) col ENRICHMENT_COLUMNS h]

theorem zip_self_map {β : Type} (l : List String) (g : String → β) :
    l.zip (l.map g) = l.map (fun c => (c, g c)) := by
  induction l with
  | nil => rfl
  | cons a l ih => simp [ih]

theorem recordCell_renderRow (hdr : List String) (row : Row)
    (flat : List (String × String)) (i : Nat) (col : String)
    (h : col ∈ hdr) :
    recordCell hdr ⟨i, renderRow hdr row flat⟩ col =
      some (renderCell row flat col) := by
  unfold recordCell renderRow
  rw [zip_self_map hdr (renderCell row flat),
    find?_map_key (renderCell row flat) col hdr h]
  rfl

theorem mem_output_columns (inputColumns : List String) (col : String)
    (h : col ∈ ENRICHMENT_COLUMNS) : col ∈ output_columns inputColumns := by
  unfold output_columns
  by_cases hic : col ∈ inputColumns
  · exact List.mem_append_left _ hic
  · refine List.mem_append_right _ ?_
    simp [List.mem_filter, h, hic]

/-! ## Characterizations of whole runs -/

theorem foldl_drain_outFile (env : Env) (g : Nat → Row) (cols : List String)
    (T : Nat) (l : List Nat) (s : LoopState) :
    (l.foldl (drainStep env g cols T) s).outFile =
      ⟨s.outFile.header, s.outFile.rows ++ l.map (rowRecord env cols g)⟩ := by
  have h1 := foldl_drain_header env g cols T l s
  have h2 := foldl_drain_rows env g cols T l s
  calc (l.foldl (drainStep env g cols T) s).outFile
      = ⟨(l.foldl (drainStep env g cols T) s).outFile.header,
          (l.foldl (drainStep env g cols T) s).outFile.rows⟩ := rfl
    _ = ⟨s.outFile.header, s.outFile.rows ++ l.map (rowRecord env cols g)⟩ := by
        rw [h1, h2]

/-- A fresh, non-dry run with a readable non-empty input and a credential:
the completed result, the output file (header plus exactly one record per
completion, in completion order), the final checkpoint, and the total
number of LLM calls. -/
theorem process_jobs_run (env : Env) (cols : List String) (rows : List Row)
    (hin : env.input = .ok (cols, rows))
    (hkey : env.apiKeyPresent = true)
    (hpos : 0 < rows.length) :
    process_jobs env none false false =
      ⟨.completed ⟨rows.length,
          rows.length - (errList env env.completionOrder).length,
          errList env env.completionOrder⟩,
        some ⟨output_columns cols,
          env.completionOrder.map
            (rowRecord env (output_columns cols) (dfGet rows))⟩,
        some ⟨env.completionOrder.toFinset, rows.length,
          (errList env env.completionOrder).length⟩,
        (env.completionOrder.map (rowCalls env)).sum⟩ := by
  unfold process_jobs
  rw [hin]
  simp only [hkey, Bool.false_eq_true, Bool.true_eq_false, if_false, if_true,
    Finset.not_mem_empty, not_false_eq_true, decide_True, List.filter_true,
    List.length_range, Nat.pos_iff_ne_zero.mp hpos, ite_false, ite_true,
    true_or, Option.isNone_none]
  rw [foldl_drain_outFile, foldl_drain_processed, foldl_drain_errors,
    foldl_drain_error_count, foldl_drain_calls]
  simp

/-- A resume run whose checkpoint already covers every row index returns
"All rows already processed!" without touching the output file, the
checkpoint, or the network. -/
theorem process_jobs_nothing (env : Env) (cols : List String)
    (rows : List Row) (dry : Bool)
    (hin : env.input = .ok (cols, rows))
    (hall : ∀ i, i < rows.length → i ∈ load_progress env.priorProgress) :
    process_jobs env none true dry =
      ⟨.nothingToDo, env.priorOutput, env.priorProgress, 0⟩ := by
  unfold process_jobs
  rw [hin]
  have hfil : (List.range rows.length).filter
      (fun i => i ∉ load_progress env.priorProgress) = [] := by
    rw [List.filter_eq_nil_iff]
    intro a ha
    simp [hall a (List.mem_range.mp ha)]
  have h1 : (if (true : Bool) = true then load_progress env.priorProgress
      else (∅ : Finset Nat)) = load_progress env.priorProgress := rfl
  rw [h1]
  dsimp only
  rw [hfil]
  simp

/-! ## The claims -/

/-- C3: for every enrichment call, the Retry Policy makes at most
`MAX_RETRIES` attempts; the delay before attempt n (n ≥ 2) equals
`base_delay * 2^(n-2)` clamped into `[min_delay, max_delay]` = `[2, 60]`;
every exception raised by the Enrichment Function is treated as retryable
(the loop only ever stops early on a successful return); and once attempts
are exhausted the last exception is re-raised to the caller. -/
theorem claim_C3_retry_policy (oracle : Oracle) :
    1 ≤ (enrich_single_job oracle).attempts ∧
    (enrich_single_job oracle).attempts ≤ MAX_RETRIES ∧
    (∀ n, 2 ≤ n → n ≤ (enrich_single_job oracle).attempts →
      (enrich_single_job oracle).delays.get? (n - 2) =
        some (max 2 (min (RETRY_DELAY_SECONDS * 2 ^ (n - 2)) 60))) ∧
    (∀ k, 1 ≤ k → k < (enrich_single_job oracle).attempts →
      ∃ e, oracle k = .raises e) ∧
    ((enrich_single_job oracle).attempts < MAX_RETRIES →
      ∃ c, oracle (enrich_single_job oracle).attempts = .returns c ∧
        (enrich_single_job oracle).result = .ok (parse_llm_response c)) ∧
    (∀ e, (enrich_single_job oracle).result = .error e →
      (enrich_single_job oracle).attempts = MAX_RETRIES ∧
        oracle MAX_RETRIES = .raises e) := by
  have hfuel : (1 : Nat) ≤ MAX_RETRIES := by decide
  unfold enrich_single_job
  have hge := retryGo_attempts_ge oracle MAX_RETRIES 1 [] hfuel
  have hlt := retryGo_attempts_lt oracle MAX_RETRIES 1 [] hfuel
  have hd := retryGo_delays oracle MAX_RETRIES 1 [] hfuel
  refine ⟨hge, by omega, ?_, ?_, ?_, ?_⟩
  · intro n h2 hn
    rw [hd]
    simp only [List.reverse_nil, List.nil_append]
    rw [List.get?_map, List.get?_range (by omega :
      n - 2 < (retryGo oracle MAX_RETRIES 1 []).attempts - 1)]
    have e1 : 1 + (n - 2) = n - 1 := by omega
    have e2 : n - 1 - 1 = n - 2 := by omega
    simp only [Option.map_some']
    unfold configuredWait wait_exponential
    rw [e1, e2]
    simp [Nat.zero_max]
  · intro k h1 h2
    exact retryGo_raises_before oracle MAX_RETRIES 1 [] hfuel k h1 h2
  · intro h
    exact retryGo_early_success oracle MAX_RETRIES 1 [] hfuel (by omega)
  · intro e he
    have h := retryGo_error oracle MAX_RETRIES 1 [] hfuel e he
    have ha : (retryGo oracle MAX_RETRIES 1 []).attempts = MAX_RETRIES := by
      omega
    exact ⟨ha, ha ▸ h.2⟩

/-- Witness for C3 at a call that raises on attempts 1 and 2 and succeeds
on attempt 3: the delay before attempt 2 is the clamped base delay, and
attempt 1 indeed raised. -/
theorem claim_C3_retry_policy_witness :
    (enrich_single_job witOracleLate).delays.get? 0 =
      some (max 2 (min (RETRY_DELAY_SECONDS * 2 ^ 0) 60)) ∧
    (∃ e, witOracleLate 1 = .raises e) := by
  refine ⟨?_, ?_⟩
  · exact (claim_C3_retry_policy witOracleLate).2.2.1 2 (by decide) (by decide)
  · exact (claim_C3_retry_policy witOracleLate).2.2.2.1 1 (by decide)
      (by decide)

/-- C5: when an attempt returns without raising but its payload cannot be
parsed as the expected JSON schema, the call is not retried (the retry
loop stops at that attempt), and the row is converted immediately into a
soft failure: blank output fields for every enrichment column, recorded as
the row-level error "JSON parse error". -/
theorem claim_C5_structural_soft_failure (oracle : Oracle) (idx : Nat)
    (ts : String) (n : Nat) (emsg raw : String)
    (hn1 : 1 ≤ n) (hn : n ≤ MAX_RETRIES)
    (hbefore : ∀ k, 1 ≤ k → k < n → ∃ e, oracle k = .raises e)
    (hret : oracle n = .returns (.unparsable emsg raw)) :
    (enrich_single_job oracle).attempts = n ∧
    process_single_row oracle idx ts =
      (idx, blankEnrichment, some "JSON parse error") ∧
    (∀ col, col ∈ ENRICHMENT_COLUMNS →
      dictGet blankEnrichment col = some (.vstr "")) := by
  have h := retryGo_success_at oracle MAX_RETRIES 1 [] n (.unparsable emsg raw)
    hn1 (by omega) hbefore hret
  obtain ⟨ha, hr⟩ := h
  refine ⟨ha, ?_, fun col hc => dictGet_blank col hc⟩
  unfold process_single_row enrich_single_job
  rw [hr]
  simp [parse_llm_response, dictHas]

/-- Witness for C5: an Enrichment Function that returns non-JSON text on
its first attempt makes exactly one attempt and yields the blank
soft-failure row. -/
theorem claim_C5_structural_soft_failure_witness :
    (enrich_single_job witOracleBad).attempts = 1 ∧
    process_single_row witOracleBad 4 "2026-10-12T00:00:00+00:00" =
      (4, blankEnrichment, some "JSON parse error") ∧
    (∀ col, col ∈ ENRICHMENT_COLUMNS →
      dictGet blankEnrichment col = some (.vstr "")) :=
  claim_C5_structural_soft_failure witOracleBad 4 "2026-10-12T00:00:00+00:00"
    1 "Expecting value: line 1 column 1 (char 0)" "I cannot answer that"
    (by decide) (by decide) (by intro k h1 h2; omega) rfl

/-- C7 counterexample: in the enrichment result `{"licenses_required": []}`
the field is present and list-valued, yet the flattened record renders it
as empty text `""` — not as the JSON array encoding `"[]"` — so the claim
that list-valued fields are rendered as a JSON array encoding fails at
this input. -/
theorem claim_C7_counterexample :
    dictGet [("licenses_required", Value.vlist [])] "licenses_required" =
      some (Value.vlist []) ∧
    flatLookup (flatten_enrichment [("licenses_required", Value.vlist [])])
      "licenses_required" = some "" ∧
    jsonDumps (Value.vlist []) = "[]" ∧
    some "" ≠ some (jsonDumps (Value.vlist [])) := by
  refine ⟨rfl, rfl, rfl, by decide⟩

/-- C7 (amended): for every enrichment result, the written output record
has exactly the configured column set in fixed order; schema columns
missing from the result (or `None`) are rendered as empty text; non-empty
list values are rendered as the JSON array encoding, while an empty list
is rendered as empty text; and result keys absent from the schema are
ignored. -/
theorem claim_C7_schema_stability (e : Dict) :
    ((flatten_enrichment e).map Prod.fst = ENRICHMENT_COLUMNS) ∧
    (∀ col, col ∈ ENRICHMENT_COLUMNS →
      (dictGet e col = none →
        flatLookup (flatten_enrichment e) col = some "") ∧
      (dictGet e col = some .vnull →
        flatLookup (flatten_enrichment e) col = some "") ∧
      (∀ l, dictGet e col = some (.vlist l) → l ≠ [] →
        flatLookup (flatten_enrichment e) col =
          some (jsonDumps (.vlist l))) ∧
      (dictGet e col = some (.vlist []) →
        flatLookup (flatten_enrichment e) col = some "")) ∧
    (∀ k v, k ∉ ENRICHMENT_COLUMNS →
      flatten_enrichment (dictSet e k v) = flatten_enrichment e) ∧
    (∀ (ic : List String) (row : Row) (i : Nat),
      (renderRow (output_columns ic) row (flatten_enrichment e)).length =
        (output_columns ic).length ∧
      (∀ col, col ∈ ENRICHMENT_COLUMNS →
        recordCell (output_columns ic)
            ⟨i, renderRow (output_columns ic) row (flatten_enrichment e)⟩
            col =
          some (flattenCell e col))) := by
  refine ⟨?_, ?_, ?_, ?_⟩
  · simp [flatten_enrichment, List.map_map, Function.comp_def]
  · intro col hc
    have hl := flatLookup_flatten e col hc
    refine ⟨?_, ?_, ?_, ?_⟩
    · intro h; rw [hl]; unfold flattenCell; rw [h]
    · intro h; rw [hl]; unfold flattenCell; rw [h]
    · intro l h hne
      rw [hl]; unfold flattenCell; rw [h]
      have : 0 < l.length := List.length_pos.mpr hne
      simp [this]
    · intro h; rw [hl]; unfold flattenCell; rw [h]; rfl
  · intro k v hk
    unfold flatten_enrichment
    refine List.map_congr_left ?_
    intro col hcol
    have hck : col ≠ k := fun h => hk (h ▸ hcol)
    unfold flattenCell
    rw [dictGet_dictSet_ne e k col v hck]
  · intro ic row i
    refine ⟨by simp [renderRow], ?_⟩
    intro col hc
    rw [recordCell_renderRow _ _ _ _ _ (mem_output_columns ic col hc),
      renderCell_flatten row e col hc]

/-- Witness for C7 (amended) at the result
`{"benefits_mentioned": ["dental"]}`: the flattened record covers exactly
the schema and renders the non-empty list as its JSON encoding. -/
theorem claim_C7_schema_stability_witness :
    ((flatten_enrichment [("benefits_mentioned",
        Value.vlist [Value.vstr "dental"])]).map Prod.fst =
      ENRICHMENT_COLUMNS) ∧
    flatLookup (flatten_enrichment [("benefits_mentioned",
        Value.vlist [Value.vstr "dental"])]) "benefits_mentioned" =
      some (jsonDumps (Value.vlist [Value.vstr "dental"])) :=
  ⟨(claim_C7_schema_stability _).1,
    ((claim_C7_schema_stability _).2.1 "benefits_mentioned" (by decide)).2.2.1
      [Value.vstr "dental"] rfl (List.cons_ne_nil _ _)⟩

/-- C9: a schema column whose value in the result is the empty list is
rendered as empty text `""`, not as the flattened JSON form `"[]"`; only
non-empty lists are JSON-encoded. -/
theorem claim_C9_empty_list_blank (e : Dict) (col : String)
    (hcol : col ∈ ENRICHMENT_COLUMNS) :
    (dictGet e col = some (.vlist []) →
      flatLookup (flatten_enrichment e) col = some "") ∧
    (∀ l, dictGet e col = some (.vlist l) → l ≠ [] →
      flatLookup (flatten_enrichment e) col = some (jsonDumps (.vlist l))) ∧
    jsonDumps (.vlist []) = "[]" ∧
    ("" : String) ≠ "[]" := by
  have hl := flatLookup_flatten e col hcol
  refine ⟨?_, ?_, rfl, by decide⟩
  · intro h; rw [hl]; unfold flattenCell; rw [h]; rfl
  · intro l h hne
    rw [hl]; unfold flattenCell; rw [h]
    have : 0 < l.length := List.length_pos.mpr hne
    simp [this]

/-- Witness for C9 at the result `{"benefits_mentioned": []}`: the empty
list is rendered as empty text. -/
theorem claim_C9_empty_list_blank_witness :
    flatLookup (flatten_enrichment [("benefits_mentioned", Value.vlist [])])
      "benefits_mentioned" = some "" :=
  (claim_C9_empty_list_blank [("benefits_mentioned", Value.vlist [])]
    "benefits_mentioned" (by decide)).1 rfl

/-- C1: after a fresh, uninterrupted, completed run over N input rows, the
checkpoint's `processed_indices` equals the set of row indices written as
data records to the output store, and both equal `{0, ..., N-1}`, each
index appearing exactly once (no gaps, no duplicates; the output holds
exactly N data records). -/
theorem claim_C1_completeness (env : Env) (cols : List String)
    (rows : List Row)
    (hin : env.input = .ok (cols, rows))
    (hkey : env.apiKeyPresent = true)
    (hpos : 0 < rows.length)
    (hord : env.completionOrder.Perm (List.range rows.length)) :
    ∃ f p, (process_jobs env none false false).outputFile = some f ∧
      (process_jobs env none false false).progressFile = some p ∧
      f.rows.length = rows.length ∧
      (f.rows.map OutRecord.srcIdx).Perm (List.range rows.length) ∧
      (f.rows.map OutRecord.srcIdx).Nodup ∧
      p.processed_indices = Finset.range rows.length ∧
      (f.rows.map OutRecord.srcIdx).toFinset = p.processed_indices ∧
      (∃ s, (process_jobs env none false false).result = .completed s) := by
  rw [process_jobs_run env cols rows hin hkey hpos]
  have hids : ((env.completionOrder.map
      (rowRecord env (output_columns cols) (dfGet rows))).map
        OutRecord.srcIdx) = env.completionOrder := by
    simp [List.map_map, Function.comp_def, rowRecord]
  have hfin : env.completionOrder.toFinset = Finset.range rows.length := by
    rw [List.toFinset_eq_of_perm _ _ hord]
    ext x
    simp [List.mem_range, Finset.mem_range]
  refine ⟨_, _, rfl, rfl, ?_, ?_, ?_, ?_, ?_, ⟨_, rfl⟩⟩
  · rw [List.length_map, hord.length_eq, List.length_range]
  · rw [hids]; exact hord
  · rw [hids]; exact hord.nodup_iff.mpr (List.nodup_range _)
  · exact hfin
  · rw [hids]

/-- Witness for C1: the three-row run of `witEnv` (completion order 2,0,1,
row 1 failing) covers indices {0,1,2} exactly once in both the output file
and the checkpoint. -/
theorem claim_C1_completeness_witness :
    ∃ f p, (process_jobs witEnv none false false).outputFile = some f ∧
      (process_jobs witEnv none false false).progressFile = some p ∧
      f.rows.length = witRows.length ∧
      (f.rows.map OutRecord.srcIdx).Perm (List.range witRows.length) ∧
      (f.rows.map OutRecord.srcIdx).Nodup ∧
      p.processed_indices = Finset.range witRows.length ∧
      (f.rows.map OutRecord.srcIdx).toFinset = p.processed_indices ∧
      (∃ s, (process_jobs witEnv none false false).result = .completed s) :=
  claim_C1_completeness witEnv ["job_title", "employer"] witRows rfl rfl
    (by decide) (by decide)

/-- C4: after a completed run, running again with resume enabled against
the same input and output target performs zero Enrichment Function calls
and appends nothing: the second run reports "nothing to do" and leaves the
output file and checkpoint exactly as the first run left them. -/
theorem claim_C4_resume_idempotence (env₁ env₂ : Env) (cols : List String)
    (rows : List Row)
    (hin₁ : env₁.input = .ok (cols, rows))
    (hkey₁ : env₁.apiKeyPresent = true)
    (hpos : 0 < rows.length)
    (hord : env₁.completionOrder.Perm (List.range rows.length))
    (hin₂ : env₂.input = .ok (cols, rows))
    (hout : env₂.priorOutput = (process_jobs env₁ none false false).outputFile)
    (hprog : env₂.priorProgress =
      (process_jobs env₁ none false false).progressFile) :
    process_jobs env₂ none true false =
      ⟨.nothingToDo, (process_jobs env₁ none false false).outputFile,
        (process_jobs env₁ none false false).progressFile, 0⟩ := by
  have hrun := process_jobs_run env₁ cols rows hin₁ hkey₁ hpos
  have hall : ∀ i, i < rows.length → i ∈ load_progress env₂.priorProgress := by
    intro i hi
    rw [hprog, hrun]
    show i ∈ env₁.completionOrder.toFinset
    exact List.mem_toFinset.mpr (hord.mem_iff.mpr (List.mem_range.mpr hi))
  rw [process_jobs_nothing env₂ cols rows false hin₂ hall, hout, hprog]

/-- Witness for C4: a second, resumed run over `witEnv`'s input and output
target is a no-op. -/
theorem claim_C4_resume_idempotence_witness :
    process_jobs witEnvResume none true false =
      ⟨.nothingToDo, (process_jobs witEnv none false false).outputFile,
        (process_jobs witEnv none false false).progressFile, 0⟩ :=
  claim_C4_resume_idempotence witEnv witEnvResume ["job_title", "employer"]
    witRows rfl rfl (by decide) (by decide) rfl rfl rfl

/-- C6: a row whose enrichment ends in a row-level error — retries
exhausted (every attempt raises) or structural failure (an attempt returns
an unparsable payload) — does not stop the run: the run completes, that
row still yields an output record with blank enrichment fields, its index
still enters the checkpoint, its error is in the summary, and the process
still exits with status zero. -/
theorem claim_C6_row_error_isolation (env : Env) (cols : List String)
    (rows : List Row) (j : Nat)
    (hin : env.input = .ok (cols, rows))
    (hkey : env.apiKeyPresent = true)
    (hpos : 0 < rows.length)
    (hord : env.completionOrder.Perm (List.range rows.length))
    (hj : j < rows.length)
    (hfail : (∀ k, 1 ≤ k → k ≤ MAX_RETRIES →
        ∃ e, env.oracles j k = .raises e) ∨
      (∃ n emsg raw, 1 ≤ n ∧ n ≤ MAX_RETRIES ∧
        (∀ k, 1 ≤ k → k < n → ∃ e, env.oracles j k = .raises e) ∧
        env.oracles j n = .returns (.unparsable emsg raw))) :
    ∃ s, (process_jobs env none false false).result = .completed s ∧
      mainExitCode (process_jobs env none false false).result = 0 ∧
      (∃ e, (j, e) ∈ s.errors) ∧
      (∃ f rec, (process_jobs env none false false).outputFile = some f ∧
        rec ∈ f.rows ∧ rec.srcIdx = j ∧
        (∀ col, col ∈ ENRICHMENT_COLUMNS →
          recordCell f.header rec col = some "")) ∧
      (∃ p, (process_jobs env none false false).progressFile = some p ∧
        j ∈ p.processed_indices) := by
  have hblank : rowEnrichment env j = blankEnrichment ∧
      ∃ e, rowError env j = some e := by
    cases hfail with
    | inl hall =>
        have hresult : ∃ e, (enrich_single_job (env.oracles j)).result =
            .error e := by
          cases hres : (enrich_single_job (env.oracles j)).result with
          | error e => exact ⟨e, rfl⟩
          | ok d =>
              exfalso
              unfold enrich_single_job at hres
              obtain ⟨c, hc, _⟩ :=
                retryGo_ok (env.oracles j) MAX_RETRIES 1 [] (by decide) d hres
              have hb1 := retryGo_attempts_ge (env.oracles j) MAX_RETRIES 1 []
                (by decide)
              have hb2 := retryGo_attempts_lt (env.oracles j) MAX_RETRIES 1 []
                (by decide)
              obtain ⟨e, he⟩ := hall _ hb1 (by omega)
              rw [he] at hc
              exact CallOutcome.noConfusion hc
        obtain ⟨emsg, herr⟩ := hresult
        constructor
        · unfold rowEnrichment process_single_row
          rw [herr]
        · refine ⟨emsg.take 100, ?_⟩
          unfold rowError process_single_row
          rw [herr]
    | inr hstruct =>
        obtain ⟨n, emsg, raw, hn1, hn, hbefore, hret⟩ := hstruct
        obtain ⟨ha, hr⟩ := retryGo_success_at (env.oracles j) MAX_RETRIES 1 []
          n (.unparsable emsg raw) hn1 (by omega) hbefore hret
        constructor
        · unfold rowEnrichment process_single_row enrich_single_job
          rw [hr]
          simp [parse_llm_response, dictHas]
        · refine ⟨"JSON parse error", ?_⟩
          unfold rowError process_single_row enrich_single_job
          rw [hr]
          simp [parse_llm_response, dictHas]
  obtain ⟨hrowenr, emsg', hrowerr⟩ := hblank
  have hjmem : j ∈ env.completionOrder :=
    hord.mem_iff.mpr (List.mem_range.mpr hj)
  rw [process_jobs_run env cols rows hin hkey hpos]
  refine ⟨_, rfl, rfl, ?_, ?_, ?_⟩
  · exact ⟨emsg',
      List.mem_filterMap.mpr ⟨j, hjmem, by rw [hrowerr]; rfl⟩⟩
  · refine ⟨_, rowRecord env (output_columns cols) (dfGet rows) j, rfl,
      List.mem_map.mpr ⟨j, hjmem, rfl⟩, rfl, ?_⟩
    intro col hc
    rw [show rowRecord env (output_columns cols) (dfGet rows) j =
        ⟨j, renderRow (output_columns cols) (dfGet rows j)
          (flatten_enrichment blankEnrichment)⟩ from by
      unfold rowRecord; rw [hrowenr]]
    rw [recordCell_renderRow _ _ _ _ _ (mem_output_columns cols col hc),
      renderCell_flatten _ _ _ hc, flattenCell_blank col hc]
  · exact ⟨_, rfl, List.mem_toFinset.mpr hjmem⟩

/-- Witness for C6 at `witEnvMixed`, exercising both error causes: row 1
(every attempt raises) and row 2 (first attempt returns an unparsable
payload) each still yield a blank record, a summary error and a checkpoint
entry in a run that completes with exit code zero. -/
theorem claim_C6_row_error_isolation_witness :
    (∃ s, (process_jobs witEnvMixed none false false).result =
        .completed s ∧
      mainExitCode (process_jobs witEnvMixed none false false).result = 0 ∧
      (∃ e, (1, e) ∈ s.errors) ∧
      (∃ f rec,
        (process_jobs witEnvMixed none false false).outputFile = some f ∧
        rec ∈ f.rows ∧ rec.srcIdx = 1 ∧
        (∀ col, col ∈ ENRICHMENT_COLUMNS →
          recordCell f.header rec col = some "")) ∧
      (∃ p,
        (process_jobs witEnvMixed none false false).progressFile = some p ∧
        1 ∈ p.processed_indices)) ∧
    (∃ s, (process_jobs witEnvMixed none false false).result =
        .completed s ∧
      mainExitCode (process_jobs witEnvMixed none false false).result = 0 ∧
      (∃ e, (2, e) ∈ s.errors) ∧
      (∃ f rec,
        (process_jobs witEnvMixed none false false).outputFile = some f ∧
        rec ∈ f.rows ∧ rec.srcIdx = 2 ∧
        (∀ col, col ∈ ENRICHMENT_COLUMNS →
          recordCell f.header rec col = some "")) ∧
      (∃ p,
        (process_jobs witEnvMixed none false false).progressFile = some p ∧
        2 ∈ p.processed_indices)) :=
  ⟨claim_C6_row_error_isolation witEnvMixed ["job_title", "employer"]
      witRows 1 rfl rfl (by decide) (by decide) (by decide)
      (Or.inl (fun k h1 h2 => ⟨"connection timeout", rfl⟩)),
    claim_C6_row_error_isolation witEnvMixed ["job_title", "employer"]
      witRows 2 rfl rfl (by decide) (by decide) (by decide)
      (Or.inr ⟨1, "Expecting value: line 1 column 1 (char 0)",
        "I cannot answer that", by decide, by decide,
        fun k h1 h2 => absurd h2 (by omega), rfl⟩)⟩

/-- C8 counterexample: a readable input with zero rows (`witEnvEmpty`)
does not abort with a fatal input error — the run returns the "nothing to
do" result, writes nothing, dispatches nothing, and would exit zero. -/
theorem claim_C8_counterexample :
    process_jobs witEnvEmpty none false false =
      ⟨.nothingToDo, none, none, 0⟩ ∧
    (∀ e, (process_jobs witEnvEmpty none false false).result ≠
      .inputError e) ∧
    mainExitCode (process_jobs witEnvEmpty none false false).result = 0 := by
  refine ⟨rfl, ?_, rfl⟩
  intro e h
  exact RunResult.noConfusion h

/-- C8 (amended): an unreadable input aborts the run before any task is
dispatched and before any output is written (the read error propagates:
non-zero exit, files untouched, zero calls); an input with zero rows does
NOT abort — the run returns normally with "nothing to do", still
dispatching no task and writing no output, and exits zero. -/
theorem claim_C8_input_error_amended (env : Env) (limit : Option Nat)
    (resume dry : Bool) :
    (∀ e, env.input = .error e →
      process_jobs env limit resume dry =
        ⟨.inputError e, env.priorOutput, env.priorProgress, 0⟩ ∧
      mainExitCode (process_jobs env limit resume dry).result = 1) ∧
    (∀ cols, env.input = .ok (cols, []) →
      process_jobs env limit resume dry =
        ⟨.nothingToDo, env.priorOutput, env.priorProgress, 0⟩ ∧
      mainExitCode (process_jobs env limit resume dry).result = 0) := by
  constructor
  · intro e he
    have h : process_jobs env limit resume dry =
        ⟨.inputError e, env.priorOutput, env.priorProgress, 0⟩ := by
      unfold process_jobs
      rw [he]
    exact ⟨h, by rw [h]; rfl⟩
  · intro cols hc
    have h : process_jobs env limit resume dry =
        ⟨.nothingToDo, env.priorOutput, env.priorProgress, 0⟩ := by
      unfold process_jobs
      rw [hc]
      cases limit with
      | none => simp
      | some l => by_cases hl : l = 0 <;> simp [hl]
    exact ⟨h, by rw [h]; rfl⟩

/-- Witness for C8 (amended): an unreadable input (`witEnvBadInput`)
propagates its read error and exits non-zero with no effects. -/
theorem claim_C8_input_error_amended_witness :
    process_jobs witEnvBadInput none false false =
      ⟨.inputError "ParserError: Error tokenizing data", none, none, 0⟩ ∧
    mainExitCode (process_jobs witEnvBadInput none false false).result = 1 :=
  (claim_C8_input_error_amended witEnvBadInput none false false).1
    "ParserError: Error tokenizing data" rfl

/-- C10: a run without resume truncates whatever file sits at the output
path down to a fresh header before processing — the run's effects are
identical to those with no prior output file and no prior checkpoint at
all, and the final output file is the header plus exactly this run's
records. -/
theorem claim_C10_no_resume_truncates (env : Env) (cols : List String)
    (rows : List Row)
    (hin : env.input = .ok (cols, rows))
    (hkey : env.apiKeyPresent = true)
    (hpos : 0 < rows.length) :
    process_jobs env none false false =
      process_jobs
        { env with priorOutput := none, priorProgress := none }
        none false false ∧
    ∃ f, (process_jobs env none false false).outputFile = some f ∧
      f.header = output_columns cols ∧
      f.rows = env.completionOrder.map
        (rowRecord env (output_columns cols) (dfGet rows)) := by
  have h1 := process_jobs_run env cols rows hin hkey hpos
  have h2 := process_jobs_run
    { env with priorOutput := none, priorProgress := none } cols rows hin
    hkey hpos
  refine ⟨h1.trans h2.symm, ?_⟩
  rw [h1]
  exact ⟨_, rfl, rfl, rfl⟩

/-- Witness for C10: with a stale output file and a stale full checkpoint
in place (`witEnvStale`), a run without resume behaves exactly as if they
were absent. -/
theorem claim_C10_no_resume_truncates_witness :
    process_jobs witEnvStale none false false =
      process_jobs
        { witEnvStale with priorOutput := none, priorProgress := none }
        none false false ∧
    ∃ f, (process_jobs witEnvStale none false false).outputFile = some f ∧
      f.header = output_columns ["job_title", "employer"] ∧
      f.rows = witEnvStale.completionOrder.map
        (rowRecord witEnvStale (output_columns ["job_title", "employer"])
          (dfGet witRows)) :=
  claim_C10_no_resume_truncates witEnvStale ["job_title", "employer"]
    witRows rfl rfl (by decide)

end EnrichFlow
